import Mathlib

/-!
Shallow embedding of the pulse (code-harvest) session tracker.

Source part_000 (package app): the session lifecycle engine.  Timestamps are
Go int64 Unix milliseconds, embedded as Int.  The Go code reads the injected
clock (app.clock.GetTime()) separately at each call site, so every operation
takes the readings it performs as explicit Int parameters.  The storage
collaborator is modelled by returning the session handed to Save (if any)
alongside the new engine state, and by an Option String parameter carrying
the error Save would return; the Go code only logs that error, so the model
consumes it without using it.

Source part_001 (package domain): the day-level aggregation engine.
-/

namespace App

/-- models.File (fields as used by part_000): one open interval of a path.
ClosedAt = 0 means still open. -/
structure File where
  Name : String
  Repository : String
  Filetype : String
  Path : String
  OpenedAt : Int
  ClosedAt : Int
  DurationMs : Int
deriving DecidableEq

/-- models.Session (fields as used by part_000).  Files is the Go map
from path to merged File, embedded as an association list in insertion
order (Go map contents are compared extensionally). -/
structure Session where
  StartedAt : Int
  EndedAt : Int
  DurationMs : Int
  OS : String
  Editor : String
  CurrentFile : Option File
  OpenFiles : List File
  Files : List (String × File)
deriving DecidableEq

/-- shared.Event (fields as used by part_000). -/
structure Event where
  Id : String
  OS : String
  Editor : String
  Path : String
deriving DecidableEq

/-- Result of reader.Read(path); none embeds the error case. -/
structure FileMetadata where
  Filename : String
  RepositoryName : String
  Filetype : String
deriving DecidableEq

/-- The mutable fields of the app struct that the operations touch. -/
structure AppState where
  activeClientId : String
  lastHeartbeat : Int
  session : Option Session
deriving DecidableEq

/-- HeartbeatTTL = 10 * time.Minute, in milliseconds (part_000 line 21). -/
def HeartbeatTTLMs : Int := 10 * 60 * 1000

/-- Go map indexing session.Files[path]: first entry with the given key. -/
def lookupFile : List (String × File) → String → Option File
  | [], _ => none
  | (p, g) :: rest, q => if p = q then some g else lookupFile rest q

/-- archiveCurrentFile (part_000 lines 226-231): set CurrentFile.ClosedAt and
append it to OpenFiles.  The Go code appends the same pointer it mutated, so
the closed copy also stays in CurrentFile. -/
def archiveCurrentFile (s : Session) (closedAt : Int) : Session :=
  match s.CurrentFile with
  | none => s
  | some cf =>
    { s with CurrentFile := some { cf with ClosedAt := closedAt },
             OpenFiles := s.OpenFiles ++ [{ cf with ClosedAt := closedAt }] }

/-- updateCurrentFile on the session (part_000 lines 233-259): on metadata
failure log and return unchanged; otherwise archive the previous current file
at openedAt and install the new one with ClosedAt = 0 (DurationMs is the Go
zero value). -/
def updateCurrentFileS (s : Session) (openedAt : Int) (path : String)
    (meta : Option FileMetadata) : Session :=
  match meta with
  | none => s
  | some m =>
    let file : File :=
      { Name := m.Filename, Repository := m.RepositoryName,
        Filetype := m.Filetype, Path := path,
        OpenedAt := openedAt, ClosedAt := 0, DurationMs := 0 }
    let s := archiveCurrentFile s openedAt
    { s with CurrentFile := some file }

/-- updateCurrentFile lifted to the app state; the Go code dereferences
app.session, which its callers always set beforehand. -/
def updateCurrentFile (st : AppState) (openedAt : Int) (path : String)
    (meta : Option FileMetadata) : AppState :=
  match st.session with
  | none => st
  | some s => { st with session := some (updateCurrentFileS s openedAt path meta) }

/-- createSession (part_000 lines 261-268).  StartedAt comes from
time.Now().UTC().UnixMilli() - the ambient wall clock, NOT the injected
clock - passed here as wallNow.  The remaining fields are Go zero values
and an empty Files map. -/
def createSession (wallNow : Int) (os editor : String) : Session :=
  { StartedAt := wallNow, EndedAt := 0, DurationMs := 0,
    OS := os, Editor := editor,
    CurrentFile := none, OpenFiles := [], Files := [] }

/-- One iteration of the merge loop in saveSession (part_000 lines 296-304):
a path seen for the first time is stored with DurationMs = ClosedAt-OpenedAt;
an already present path has the interval length added to the stored entry. -/
def mergeFile (files : List (String × File)) (f : File) : List (String × File) :=
  match lookupFile files f.Path with
  | none => files ++ [(f.Path, { f with DurationMs := f.ClosedAt - f.OpenedAt })]
  | some _ =>
    files.map fun pg =>
      if pg.1 = f.Path then
        (pg.1, { pg.2 with DurationMs := pg.2.DurationMs + (f.ClosedAt - f.OpenedAt) })
      else pg

/-- The whole merge loop over OpenFiles (part_000 lines 295-305). -/
def mergeOpenFiles (files : List (String × File)) (ofs : List File) :
    List (String × File) :=
  ofs.foldl mergeFile files

/-- saveSession (part_000 lines 270-319).  now is the clock reading taken at
line 285; saveErr is the error storage.Save would return (line 315), which
the Go code only logs.  Returns the new engine state and the session handed
to Save, if any.  The deferred reset (lines 272-275) clears activeClientId
and session on every path. -/
def saveSession (st : AppState) (now : Int) (saveErr : Option String) :
    AppState × Option Session :=
  match st.session with
  | none => ({ st with activeClientId := "", session := none }, none)
  | some s =>
    let s := archiveCurrentFile s now
    let s := { s with EndedAt := now }
    let s := { s with DurationMs := s.EndedAt - s.StartedAt }
    let s := if s.OpenFiles.length > 0
             then { s with Files := mergeOpenFiles s.Files s.OpenFiles }
             else s
    if s.Files.length < 1 then
      ({ st with activeClientId := "", session := none }, none)
    else
      ({ st with activeClientId := "", session := none }, some s)

/-- Result of an RPC handler: either the process dies via log.PrintFatal, or
it returns with a new state, the session handed to Save (if any), and the Go
error returned to the RPC caller. -/
inductive RpcResult where
  | fatalExit (st : AppState)
  | ok (st : AppState) (saved : Option Session) (err : Option String)
deriving DecidableEq

/-- EndSession (part_000 lines 188-214).  The guard at line 194 is
len(app.activeClientId) > 1 && app.activeClientId != event.Id; PrintFatal
halts the process, so nothing after it runs. -/
def EndSession (st : AppState) (event : Event) (now : Int)
    (saveErr : Option String) : RpcResult :=
  if 1 < st.activeClientId.length ∧ st.activeClientId ≠ event.Id then
    .fatalExit st
  else if st.activeClientId = "" ∧ st.session = none then
    .ok st none none
  else
    let p := saveSession st now saveErr
    .ok p.1 p.2 none

/-- CheckHeartbeat (part_000 lines 217-224).  tCheck is the clock reading in
the staleness test (line 219); tSave the one saveSession takes (line 285). -/
def CheckHeartbeat (st : AppState) (tCheck tSave : Int)
    (saveErr : Option String) : AppState × Option Session :=
  if st.session ≠ none ∧ st.lastHeartbeat + HeartbeatTTLMs < tCheck then
    saveSession st tSave saveErr
  else (st, none)

/-- FocusGained (part_000 lines 99-131).  tHeartbeat, tSave, tOpen are the
clock readings at lines 104, 285 (inside saveSession, when taken) and 234
(inside updateCurrentFile); wallNow is time.Now() inside createSession. -/
def FocusGained (st : AppState) (event : Event)
    (tHeartbeat tSave tOpen wallNow : Int)
    (meta : Option FileMetadata) (saveErr : Option String) :
    AppState × Option Session :=
  let st := { st with lastHeartbeat := tHeartbeat }
  if st.activeClientId = event.Id then (st, none)
  else
    let p := match st.session with
             | some _ => saveSession st tSave saveErr
             | none => (st, none)
    let st := { p.1 with activeClientId := event.Id,
                         session := some (createSession wallNow event.OS event.Editor) }
    (updateCurrentFile st tOpen event.Path meta, p.2)

/-- Engine state the RPC result carries. -/
def rpcState : RpcResult → AppState
  | .fatalExit st => st
  | .ok st _ _ => st

/-- Session handed to the Store, if the handler reached a save. -/
def rpcSaved : RpcResult → Option Session
  | .fatalExit _ => none
  | .ok _ saved _ => saved

/-- Go error value the handler returns to the RPC caller. -/
def rpcErr : RpcResult → Option String
  | .fatalExit _ => none
  | .ok _ _ err => err

/-- Whether the handler hit log.PrintFatal. -/
def isFatal : RpcResult → Bool
  | .fatalExit _ => true
  | .ok _ _ _ => false

/-- The archived intervals a session contributes at close time now: all of
OpenFiles plus the current file closed at now, if present.  This names the
intervals the merge loop in saveSession consumes. -/
def closedIntervals (s : Session) (now : Int) : List File :=
  s.OpenFiles ++ (match s.CurrentFile with
    | some cf => [{ cf with ClosedAt := now }]
    | none => [])

/-- Sum of (ClosedAt - OpenedAt) over the intervals of one path. -/
def intervalSum (fs : List File) (p : String) : Int :=
  ((fs.filter fun f => f.Path = p).map fun f => f.ClosedAt - f.OpenedAt).sum

end App

namespace truncate

/-- Modelled from the spec: the truncate package is imported by part_001 but
its source is not provided.  The spec (section 4.3) says aggregation buckets
sessions by the calendar day, UTC, midnight-truncated, of startedAt.  For a
Unix-millisecond timestamp that is the timestamp minus its remainder modulo
one day; Int.emod is non-negative, so this floors to the day boundary. -/
def Day (timestampMs : Int) : Int := timestampMs - timestampMs % 86400000

end truncate

namespace domain

/-- Modelled from the spec: the domain File record consumed by aggregation;
only the fields the repositories reduction reads (section 4.3: per file, its
durationMs is summed into its repository's running total). -/
structure File where
  Repository : String
  DurationMs : Int
deriving DecidableEq

/-- Modelled from the spec: the persisted Session record aggregation
consumes.  part_001 reads StartedAt and DurationMs; the files are carried
for the repositories reduction. -/
structure Session where
  StartedAt : Int
  DurationMs : Int
  Files : List File
deriving DecidableEq

/-- Sessions is a slice of several Session structs (part_001 line 12). -/
abbrev Sessions := List Session

/-- Aggregation period (spec section 3: one of Day, Week, Month, Year);
part_001 uses the Day constant. -/
inductive Period where
  | Day | Week | Month | Year
deriving DecidableEq

/-- Civil date (year, month, day) of a count of days since 1970-01-01,
proleptic Gregorian; the arithmetic shifts the epoch so every division has a
non-negative dividend. -/
def civilFromDays (z : Int) : Int × Int × Int :=
  let z := z + 719468
  let era := (if 0 ≤ z then z else z - 146096) / 146097
  let doe := z - era * 146097
  let yoe := (doe - doe / 1460 + doe / 36524 - doe / 146096) / 365
  let y := yoe + era * 400
  let doy := doe - (365 * yoe + yoe / 4 - yoe / 100)
  let mp := (5 * doy + 2) / 153
  let d := doy - (153 * mp + 2) / 5 + 1
  let m := mp + (if mp < 10 then 3 else -9)
  (y + (if m ≤ 2 then 1 else 0), m, d)

/-- Left-pad the decimal form of a non-negative number with zeros. -/
def padNum (width : Nat) (n : Int) : String :=
  let s := toString n
  if s.length < width then String.mk (List.replicate (width - s.length) '0') ++ s
  else s

/-- The Go expression time.Unix(0, date*int64(time.Millisecond)).Format
applied to the layout constant yymmdd = 2006-01-02 (part_001 lines 9, 30):
the UTC calendar date of a millisecond timestamp, as YYYY-MM-DD. -/
def formatYYYYMMDD (ms : Int) : String :=
  let c := civilFromDays (ms / 86400000)
  padNum 4 c.1 ++ "-" ++ padNum 2 c.2.1 ++ "-" ++ padNum 2 c.2.2

/-- AggregatedSession as constructed by part_001 lines 35-41.  Repositories
is the Go map from repository name to total time, embedded extensionally as
a function so that equal contents are equal maps. -/
structure AggregatedSession where
  Period : Period
  Date : Int
  DateString : String
  TotalTimeMs : Int
  Repositories : String → Int

/-- Modelled from the spec: sessionRepositories (called at part_001 line 40)
is not among the provided sources.  Spec section 4.3: build repositories by
summing, per file, its durationMs into its repository's running total across
all sessions and files in the bucket. -/
def sessionRepositories (sessions : List Session) : String → Int :=
  fun repo =>
    (sessions.map fun s =>
      ((s.Files.filter fun f => f.Repository = repo).map fun f => f.DurationMs).sum).sum

/-- Appending one session to the bucket of day d: Go map insertion
buckets[d] = append(buckets[d], s), embedded on an association list that
keeps one entry per key (first entry updated in place, new keys appended). -/
def addToBucket : List (Int × List Session) → Int → Session → List (Int × List Session)
  | [], d, s => [(d, [s])]
  | (k, b) :: rest, d, s =>
    if k = d then (k, b ++ [s]) :: rest
    else (k, b) :: addToBucket rest d s

/-- groupByDay (part_001 lines 15-22): fold the sessions into day buckets
keyed by truncate.Day of StartedAt.  The Go map is embedded as an
association list; Go map iteration order is unspecified, so the entry order
here (key first-appearance order) is one admissible order and all claims
about the output are stated up to permutation. -/
def groupByDay (sessions : List Session) : List (Int × List Session) :=
  sessions.foldl (fun buckets s => addToBucket buckets (truncate.Day s.StartedAt) s) []

/-- Aggregate (part_001 lines 25-46): one AggregatedSession per day bucket,
with TotalTimeMs the sum of the bucket's session durations. -/
def Sessions.Aggregate (sessions : Sessions) : List AggregatedSession :=
  (groupByDay sessions).map fun db =>
    { Period := Period.Day
      Date := db.1
      DateString := formatYYYYMMDD db.1
      TotalTimeMs := (db.2.map fun s => s.DurationMs).sum
      Repositories := sessionRepositories db.2 }

/-- Keys of a bucket list. -/
def keys (bl : List (Int × List Session)) : List Int := bl.map Prod.fst

/-- First bucket stored under a key (Go map lookup), empty if absent. -/
def bucketOf : List (Int × List Session) → Int → List Session
  | [], _ => []
  | (k, b) :: rest, d => if k = d then b else bucketOf rest d

/-- Total duration held in a bucket list. -/
def sumAll (bl : List (Int × List Session)) : Int :=
  (bl.map fun db => (db.2.map fun s => s.DurationMs).sum).sum

end domain

namespace App

/-- Action kinds for the locking-discipline model: each engine operation is
transcribed, statement by statement, into the sequence of lock operations,
accesses to the guarded fields (activeClientId, lastHeartbeat, session), and
other effects it performs, in source order. -/
inductive Act where
  | lock
  | unlock
  | touchState
  | readClock
  | log
deriving DecidableEq

/-- FocusGained, part_000 lines 99-131: Lock (101), deferred Unlock (102),
clock read and lastHeartbeat write (104), activeClientId read (110), then on
the non-matching branch session read (117), saveSession (118), activeClientId
and session writes (121-122), updateCurrentFile (127).  All state accesses
sit between lock and unlock. -/
def focusGainedTrace : List Act :=
  [.lock, .readClock, .touchState, .touchState, .touchState, .touchState, .unlock]

/-- OpenFile, part_000 lines 134-156: debug log (135) before the Lock (140),
then clock read and lastHeartbeat write (143), session read (148), possible
session creation (149-151), updateCurrentFile (153), deferred Unlock. -/
def openFileTrace : List Act :=
  [.log, .lock, .readClock, .touchState, .touchState, .touchState, .unlock]

/-- SendHeartbeat, part_000 lines 161-185: Lock (163), session read (169),
possible session creation (175-177), lastHeartbeat write (181), deferred
Unlock. -/
def sendHeartbeatTrace : List Act :=
  [.lock, .touchState, .touchState, .readClock, .touchState, .unlock]

/-- EndSession, part_000 lines 188-214: Lock (189), activeClientId read
(194), activeClientId and session reads (204), saveSession (210), deferred
Unlock. -/
def endSessionTrace : List Act :=
  [.lock, .touchState, .touchState, .touchState, .unlock]

/-- CheckHeartbeat, part_000 lines 217-224: debug log (218), then the guard
at line 219 reads session and lastHeartbeat and the clock BEFORE the Lock at
line 220; saveSession (222) then runs under the lock, deferred Unlock. -/
def checkHeartbeatTrace : List Act :=
  [.log, .touchState, .touchState, .readClock, .lock, .touchState, .unlock]

/-- The five engine operations of spec section 4.1, as traces. -/
def engineOpTraces : List (List Act) :=
  [focusGainedTrace, openFileTrace, sendHeartbeatTrace, endSessionTrace,
   checkHeartbeatTrace]

/-- Whether a trace accesses the guarded state at a point where the lock is
not held. -/
def touchesUnlocked : List Act → Bool → Bool
  | [], _ => false
  | .lock :: rest, _ => touchesUnlocked rest true
  | .unlock :: rest, _ => touchesUnlocked rest false
  | .touchState :: rest, locked => if locked then touchesUnlocked rest locked else true
  | _ :: rest, locked => touchesUnlocked rest locked

/-- A trace holds the lock across every access to the guarded state. -/
def locksAllState (t : List Act) : Bool := !(touchesUnlocked t false)

/-- The session as saveSession finishes it, spelled with the same lets the
source uses: archive the current file, stamp EndedAt and DurationMs, merge
OpenFiles into Files. -/
def finalSession (s : Session) (now : Int) : Session :=
  let s := archiveCurrentFile s now
  let s := { s with EndedAt := now }
  let s := { s with DurationMs := s.EndedAt - s.StartedAt }
  { s with Files := mergeOpenFiles s.Files s.OpenFiles }

theorem archive_OpenFiles (s : Session) (t : Int) :
    (archiveCurrentFile s t).OpenFiles = closedIntervals s t := by
  unfold archiveCurrentFile closedIntervals
  cases s.CurrentFile <;> simp

theorem archive_Files (s : Session) (t : Int) :
    (archiveCurrentFile s t).Files = s.Files := by
  unfold archiveCurrentFile
  cases s.CurrentFile <;> simp

theorem archive_StartedAt (s : Session) (t : Int) :
    (archiveCurrentFile s t).StartedAt = s.StartedAt := by
  unfold archiveCurrentFile
  cases s.CurrentFile <;> simp

theorem finalSession_Files (s : Session) (now : Int) :
    (finalSession s now).Files = mergeOpenFiles s.Files (closedIntervals s now) := by
  unfold finalSession
  simp [archive_Files, archive_OpenFiles]

theorem finalSession_EndedAt (s : Session) (now : Int) :
    (finalSession s now).EndedAt = now := by
  unfold finalSession
  simp

theorem finalSession_StartedAt (s : Session) (now : Int) :
    (finalSession s now).StartedAt = s.StartedAt := by
  unfold finalSession
  simp [archive_StartedAt]

theorem finalSession_DurationMs (s : Session) (now : Int) :
    (finalSession s now).DurationMs = now - s.StartedAt := by
  unfold finalSession
  simp [archive_StartedAt]

/-- Folding the merge loop over no intervals leaves the map unchanged. -/
theorem mergeOpenFiles_nil (files : List (String × File)) : mergeOpenFiles files [] = files := rfl

/-- What saveSession does on a state holding a session: reset the engine to
idle and hand the merged session to Save exactly when its Files map came out
non-empty. -/
theorem saveSession_eq (ac : String) (lh now : Int) (s : Session) (e : Option String) :
    saveSession ⟨ac, lh, some s⟩ now e =
      (⟨"", lh, none⟩,
       if (finalSession s now).Files = [] then none else some (finalSession s now)) := by
  simp only [saveSession, finalSession]
  generalize archiveCurrentFile s now = A
  by_cases h0 : A.OpenFiles = []
  case pos =>
    simp only [h0, List.length_nil, gt_iff_lt, lt_self_iff_false, if_false,
      mergeOpenFiles_nil, Nat.lt_one_iff, List.length_eq_zero]
    split_ifs <;> rfl
  case neg =>
    have h1 : A.OpenFiles.length > 0 := List.length_pos.mpr h0
    simp only [h1, if_true, gt_iff_lt, Nat.lt_one_iff, List.length_eq_zero]
    split_ifs <;> rfl

/-- Every exit path of saveSession clears activeClientId and session. -/
theorem saveSession_resets (st : AppState) (now : Int) (e : Option String) :
    (saveSession st now e).1.activeClientId = "" ∧ (saveSession st now e).1.session = none := by
  obtain ⟨ac, lh, sess⟩ := st
  cases sess with
  | none => exact ⟨rfl, rfl⟩
  | some s => rw [saveSession_eq]; exact ⟨rfl, rfl⟩

theorem intervalSum_nil (p : String) : intervalSum [] p = 0 := rfl

theorem intervalSum_cons (f : File) (fs : List File) (p : String) :
    intervalSum (f :: fs) p =
      (if f.Path = p then f.ClosedAt - f.OpenedAt else 0) + intervalSum fs p := by
  by_cases h : f.Path = p <;> simp [intervalSum, List.filter_cons, h]

theorem lookupFile_append (l₁ l₂ : List (String × File)) (p : String) :
    lookupFile (l₁ ++ l₂) p =
      match lookupFile l₁ p with
      | some g => some g
      | none => lookupFile l₂ p := by
  induction l₁ with
  | nil => rfl
  | cons pg rest ih =>
    obtain ⟨q, g⟩ := pg
    by_cases h : q = p <;> simp [lookupFile, h, ih]

theorem lookupFile_map_upd (l : List (String × File)) (q : String) (x : Int) (p : String) :
    lookupFile
      (l.map fun pg =>
        if pg.1 = q then (pg.1, { pg.2 with DurationMs := pg.2.DurationMs + x }) else pg) p =
      if p = q then
        (lookupFile l p).map fun g => { g with DurationMs := g.DurationMs + x }
      else lookupFile l p := by
  induction l with
  | nil => simp [lookupFile]
  | cons pg rest ih =>
    obtain ⟨a, b⟩ := pg
    simp only [List.map_cons]
    by_cases hq : a = q
    · subst hq
      simp only [if_pos rfl]
      by_cases hp : a = p
      · subst hp
        simp [lookupFile]
      · have hp' : ¬(p = a) := fun hh => hp hh.symm
        simp [lookupFile, hp, hp', ih]
    · simp only [if_neg hq]
      by_cases hp : a = p
      · subst hp
        have hq' : ¬(a = q) := hq
        simp [lookupFile, hq']
      · simp [lookupFile, hp, ih]

theorem lookupFile_mergeFile (files : List (String × File)) (f : File) (p : String) :
    lookupFile (mergeFile files f) p =
      if p = f.Path then
        some (match lookupFile files f.Path with
              | none => { f with DurationMs := f.ClosedAt - f.OpenedAt }
              | some g => { g with DurationMs := g.DurationMs + (f.ClosedAt - f.OpenedAt) })
      else lookupFile files p := by
  unfold mergeFile
  cases hl : lookupFile files f.Path with
  | none =>
    rw [lookupFile_append]
    by_cases hp : p = f.Path
    · subst hp
      rw [hl]
      simp [lookupFile]
    · have hp' : ¬(f.Path = p) := fun hh => hp hh.symm
      cases hl2 : lookupFile files p <;> simp [lookupFile, hl2, hp, hp']
  | some g =>
    rw [lookupFile_map_upd]
    by_cases hp : p = f.Path
    · subst hp
      rw [hl]
      simp
    · simp [hp]

theorem lookupFile_mergeOpenFiles (fs : List File) :
    ∀ (acc : List (String × File)) (p : String),
    (lookupFile (mergeOpenFiles acc fs) p).map (fun g => g.DurationMs) =
      match lookupFile acc p with
      | some g => some (g.DurationMs + intervalSum fs p)
      | none => if fs.any (fun f => f.Path = p) then some (intervalSum fs p) else none := by
  induction fs with
  | nil =>
    intro acc p
    cases hl : lookupFile acc p <;> simp [mergeOpenFiles_nil, hl, intervalSum_nil]
  | cons f fs ih =>
    intro acc p
    have hstep : mergeOpenFiles acc (f :: fs) = mergeOpenFiles (mergeFile acc f) fs := rfl
    rw [hstep, ih, lookupFile_mergeFile]
    by_cases hp : p = f.Path
    · subst hp
      cases hl : lookupFile acc f.Path with
      | none =>
        simp [hl, intervalSum_cons]
      | some g =>
        simp [hl, intervalSum_cons]
        omega
    · have hp' : ¬(f.Path = p) := fun hh => hp hh.symm
      cases hl : lookupFile acc p <;>
        simp [hl, hp, hp', intervalSum_cons]

end App

namespace domain

theorem keys_nil : keys [] = [] := rfl

theorem keys_cons (k : Int) (b : List Session) (rest : List (Int × List Session)) :
    keys ((k, b) :: rest) = k :: keys rest := rfl

theorem keys_addToBucket (bl : List (Int × List Session)) (d : Int) (s : Session) :
    keys (addToBucket bl d s) = if d ∈ keys bl then keys bl else keys bl ++ [d] := by
  induction bl with
  | nil => simp [addToBucket, keys]
  | cons kb rest ih =>
    obtain ⟨k, b⟩ := kb
    by_cases h : k = d
    · subst h
      simp [addToBucket, keys_cons]
    · have h2 : ¬(d = k) := fun hh => h hh.symm
      simp only [addToBucket, if_neg h, keys_cons, ih, List.mem_cons]
      by_cases hm : d ∈ keys rest
      · simp [hm]
      · simp [hm, h2]

theorem bucketOf_addToBucket (bl : List (Int × List Session)) (d : Int) (s : Session)
    (d' : Int) :
    bucketOf (addToBucket bl d s) d' = bucketOf bl d' ++ (if d = d' then [s] else []) := by
  induction bl with
  | nil => by_cases h : d = d' <;> simp [addToBucket, bucketOf, h]
  | cons kb rest ih =>
    obtain ⟨k, b⟩ := kb
    by_cases hk : k = d
    · subst hk
      simp only [addToBucket, if_pos rfl]
      by_cases h' : k = d'
      · subst h'
        simp [bucketOf]
      · simp [bucketOf, h']
    · simp only [addToBucket, if_neg hk]
      by_cases h' : k = d'
      · subst h'
        have hd : ¬(d = k) := fun hh => hk hh.symm
        simp [bucketOf, hd]
      · simp [bucketOf, h', ih]

theorem sumAll_addToBucket (bl : List (Int × List Session)) (d : Int) (s : Session) :
    sumAll (addToBucket bl d s) = sumAll bl + s.DurationMs := by
  induction bl with
  | nil => simp [addToBucket, sumAll]
  | cons kb rest ih =>
    obtain ⟨k, b⟩ := kb
    by_cases hk : k = d
    · subst hk
      simp [addToBucket, sumAll]
      omega
    · simp only [addToBucket, if_neg hk, sumAll, List.map_cons, List.sum_cons] at ih ⊢
      omega

theorem bucketOf_foldl (xs : List Session) :
    ∀ (bl : List (Int × List Session)) (d : Int),
    bucketOf (xs.foldl (fun b s => addToBucket b (truncate.Day s.StartedAt) s) bl) d =
      bucketOf bl d ++ xs.filter (fun s => truncate.Day s.StartedAt = d) := by
  induction xs with
  | nil => intro bl d; simp
  | cons x xs ih =>
    intro bl d
    simp only [List.foldl_cons, List.filter_cons]
    rw [ih, bucketOf_addToBucket]
    by_cases h : truncate.Day x.StartedAt = d
    · simp [h]
    · simp [h]

theorem sumAll_foldl (xs : List Session) :
    ∀ bl, sumAll (xs.foldl (fun b s => addToBucket b (truncate.Day s.StartedAt) s) bl) =
      sumAll bl + (xs.map (fun s => s.DurationMs)).sum := by
  induction xs with
  | nil => intro bl; simp
  | cons x xs ih =>
    intro bl
    simp only [List.foldl_cons, List.map_cons, List.sum_cons]
    rw [ih, sumAll_addToBucket]
    omega

theorem mem_keys_foldl (xs : List Session) :
    ∀ bl d, d ∈ keys (xs.foldl (fun b s => addToBucket b (truncate.Day s.StartedAt) s) bl) ↔
      d ∈ keys bl ∨ d ∈ xs.map (fun s => truncate.Day s.StartedAt) := by
  induction xs with
  | nil => intro bl d; simp
  | cons x xs ih =>
    intro bl d
    simp only [List.foldl_cons, List.map_cons, List.mem_cons]
    rw [ih, keys_addToBucket]
    by_cases h : truncate.Day x.StartedAt ∈ keys bl
    · rw [if_pos h]
      constructor
      · rintro (hh | hh)
        · exact Or.inl hh
        · exact Or.inr (Or.inr hh)
      · rintro (hh | hh | hh)
        · exact Or.inl hh
        · exact Or.inl (by rw [hh]; exact h)
        · exact Or.inr hh
    · rw [if_neg h]
      simp only [List.mem_append, List.mem_singleton]
      constructor
      · rintro ((hh | hh) | hh)
        · exact Or.inl hh
        · exact Or.inr (Or.inl hh)
        · exact Or.inr (Or.inr hh)
      · rintro (hh | hh | hh)
        · exact Or.inl (Or.inl hh)
        · exact Or.inl (Or.inr hh)
        · exact Or.inr hh

theorem nodup_keys_foldl (xs : List Session) :
    ∀ bl, (keys bl).Nodup →
      (keys (xs.foldl (fun b s => addToBucket b (truncate.Day s.StartedAt) s) bl)).Nodup := by
  induction xs with
  | nil => intro bl h; exact h
  | cons x xs ih =>
    intro bl h
    simp only [List.foldl_cons]
    apply ih
    rw [keys_addToBucket]
    by_cases hm : truncate.Day x.StartedAt ∈ keys bl
    · rwa [if_pos hm]
    · rw [if_neg hm]
      simp [List.nodup_append, h, hm]

theorem bucketOf_of_mem (bl : List (Int × List Session)) (hnd : (keys bl).Nodup) :
    ∀ d b, (d, b) ∈ bl → bucketOf bl d = b := by
  induction bl with
  | nil => intro d b h; simp at h
  | cons kb rest ih =>
    obtain ⟨k, b0⟩ := kb
    intro d b h
    rw [keys_cons] at hnd
    rcases List.mem_cons.mp h with h1 | h1
    · injection h1 with hd hb
      subst hd; subst hb
      simp [bucketOf]
    · have hk : ¬(k = d) := by
        intro he
        subst he
        have hmem : k ∈ keys rest := List.mem_map_of_mem Prod.fst h1
        exact (List.nodup_cons.mp hnd).1 hmem
      simp only [bucketOf, if_neg hk]
      exact ih (List.nodup_cons.mp hnd).2 d b h1

theorem bucketOf_groupByDay (xs : List Session) (d : Int) :
    bucketOf (groupByDay xs) d = xs.filter (fun s => truncate.Day s.StartedAt = d) := by
  unfold groupByDay
  rw [bucketOf_foldl]
  rfl

theorem mem_keys_groupByDay (xs : List Session) (d : Int) :
    d ∈ keys (groupByDay xs) ↔ d ∈ xs.map (fun s => truncate.Day s.StartedAt) := by
  unfold groupByDay
  rw [mem_keys_foldl]
  simp [keys]

theorem nodup_keys_groupByDay (xs : List Session) : (keys (groupByDay xs)).Nodup := by
  unfold groupByDay
  exact nodup_keys_foldl xs [] (by simp [keys])

theorem sumAll_groupByDay (xs : List Session) :
    sumAll (groupByDay xs) = (xs.map (fun s => s.DurationMs)).sum := by
  unfold groupByDay
  rw [sumAll_foldl]
  simp [sumAll]

/-- The per-bucket aggregate with the bucket spelled as a filter of the
input; Aggregate is this function mapped over the day keys. -/
def mkAgg (l : List Session) (d : Int) : AggregatedSession :=
  { Period := Period.Day
    Date := d
    DateString := formatYYYYMMDD d
    TotalTimeMs := ((l.filter fun s => truncate.Day s.StartedAt = d).map fun s => s.DurationMs).sum
    Repositories := sessionRepositories (l.filter fun s => truncate.Day s.StartedAt = d) }

theorem aggregate_eq_map_keys (l : List Session) :
    Sessions.Aggregate l = (keys (groupByDay l)).map (mkAgg l) := by
  unfold Sessions.Aggregate keys
  rw [List.map_map]
  apply List.map_congr_left
  intro db hdb
  obtain ⟨d, b⟩ := db
  have hb : b = l.filter (fun s => truncate.Day s.StartedAt = d) := by
    have h0 := bucketOf_of_mem (groupByDay l) (nodup_keys_groupByDay l) d b hdb
    rw [← h0, bucketOf_groupByDay]
  subst hb
  rfl

end domain

namespace App

/-- Two archived intervals and one still-open current file, all on the same
path, for concrete runs of the close path. -/
def exFileA : File :=
  { Name := "a.go", Repository := "pulse", Filetype := "go", Path := "/repo/a.go",
    OpenedAt := 0, ClosedAt := 1000, DurationMs := 0 }

def exFileB : File :=
  { Name := "a.go", Repository := "pulse", Filetype := "go", Path := "/repo/a.go",
    OpenedAt := 2000, ClosedAt := 2500, DurationMs := 0 }

def exCurrent : File :=
  { Name := "a.go", Repository := "pulse", Filetype := "go", Path := "/repo/a.go",
    OpenedAt := 3000, ClosedAt := 0, DurationMs := 0 }

def exSession : Session :=
  { StartedAt := 100, EndedAt := 0, DurationMs := 0, OS := "linux", Editor := "nvim",
    CurrentFile := some exCurrent, OpenFiles := [exFileA, exFileB], Files := [] }

def exState : AppState := ⟨"alpha", 0, some exSession⟩

/-- The session the concrete close at t = 3600 hands to the Store. -/
def exSaved : Session := ((saveSession exState 3600 none).2).getD exSession

/-- A state whose active client id has length one, which slips past the
len > 1 guard in EndSession. -/
def exStateShort : AppState := ⟨"A", 0, some exSession⟩

def evB : Event := { Id := "B", OS := "linux", Editor := "nvim", Path := "" }

def evAlpha : Event := { Id := "alpha", OS := "linux", Editor := "nvim", Path := "/repo/a.go" }

def exHbState : AppState := ⟨"alpha", 1000, some exSession⟩

/-- A session created at wall-clock 100 that acquired one file, then closed
with an injected clock reading 50, earlier than the wall clock. -/
def exLate : Session := { createSession 100 "linux" "nvim" with CurrentFile := some exCurrent }

def exLateSaved : Session := ((saveSession ⟨"alpha", 0, some exLate⟩ 50 none).2).getD exLate

end App

/-- C1: the spec says EndSession from a client other than the non-empty
active client raises a fatal error before any session mutation.  The code
guards with len(activeClientId) > 1, so a one-character active client id
("A") with a differing event client ("B") skips the fatal branch and falls
through to saveSession, which clears and saves the session. -/
theorem claimC1_endSession_guard :
    App.exStateShort.activeClientId ≠ "" ∧
    App.exStateShort.activeClientId ≠ App.evB.Id ∧
    App.exStateShort.session ≠ none ∧
    App.isFatal (App.EndSession App.exStateShort App.evB 3600 none) = false ∧
    (App.rpcState (App.EndSession App.exStateShort App.evB 3600 none)).session = none ∧
    (App.rpcState (App.EndSession App.exStateShort App.evB 3600 none)).activeClientId = "" ∧
    App.rpcSaved (App.EndSession App.exStateShort App.evB 3600 none) ≠ none := by
  decide

/-- C2: at save time the merged Files entry of every path carries exactly
the summed length of that path's archived intervals, the just-closed current
file included, however often the path was reopened; paths with no interval
have no entry. -/
theorem claimC2_merged_durations :
    ∀ (ac : String) (lh now : Int) (s : App.Session) (e : Option String)
      (sess : App.Session) (p : String),
    s.Files = [] →
    (App.saveSession ⟨ac, lh, some s⟩ now e).2 = some sess →
    (App.lookupFile sess.Files p).map (fun g => g.DurationMs) =
      (if (App.closedIntervals s now).any (fun f => f.Path = p)
       then some (App.intervalSum (App.closedIntervals s now) p) else none) := by
  intro ac lh now s e sess p hFiles hSave
  rw [App.saveSession_eq] at hSave
  have hSave' : (if (App.finalSession s now).Files = []
                 then none else some (App.finalSession s now)) = some sess := hSave
  by_cases hif : (App.finalSession s now).Files = []
  · rw [if_pos hif] at hSave'
    cases hSave'
  · rw [if_neg hif] at hSave'
    injection hSave' with hh
    subst hh
    rw [App.finalSession_Files, hFiles]
    exact App.lookupFile_mergeOpenFiles (App.closedIntervals s now) [] p

/-- C2 witness: closing the session with intervals 0-1000 and 2000-2500 and
a current file open since 3000, at t = 3600, merges /repo/a.go to 2100 ms. -/
theorem claimC2_witness :
    (App.lookupFile App.exSaved.Files "/repo/a.go").map (fun g => g.DurationMs) =
      (if (App.closedIntervals App.exSession 3600).any (fun f => f.Path = "/repo/a.go")
       then some (App.intervalSum (App.closedIntervals App.exSession 3600) "/repo/a.go")
       else none) :=
  claimC2_merged_durations "alpha" 0 3600 App.exSession none App.exSaved "/repo/a.go" rfl rfl

/-- C3: with a session active, checkHeartbeat takes the close path exactly
when the clock reading exceeds lastHeartbeat by strictly more than the TTL;
at exactly the TTL the state is untouched. -/
theorem claimC3_heartbeat_boundary :
    ∀ (st : App.AppState) (tc ts : Int) (e : Option String),
    st.session ≠ none →
    (((App.CheckHeartbeat st tc ts e).1.session = none) ↔
        App.HeartbeatTTLMs < tc - st.lastHeartbeat) ∧
    (tc - st.lastHeartbeat = App.HeartbeatTTLMs →
        App.CheckHeartbeat st tc ts e = (st, none)) ∧
    (App.HeartbeatTTLMs < tc - st.lastHeartbeat →
        App.CheckHeartbeat st tc ts e = App.saveSession st ts e) := by
  intro st tc ts e hs
  unfold App.CheckHeartbeat
  by_cases hc : st.lastHeartbeat + App.HeartbeatTTLMs < tc
  · rw [if_pos ⟨hs, hc⟩]
    refine ⟨⟨fun _ => by omega, fun _ => (App.saveSession_resets st ts e).2⟩,
      fun hEq => absurd hc (by omega), fun _ => rfl⟩
  · rw [if_neg (fun hh => hc hh.2)]
    exact ⟨⟨fun h0 => absurd h0 hs, fun hlt => absurd (show st.lastHeartbeat + App.HeartbeatTTLMs < tc by omega) hc⟩,
      fun _ => rfl,
      fun hlt => absurd (show st.lastHeartbeat + App.HeartbeatTTLMs < tc by omega) hc⟩

/-- C3 witness: lastHeartbeat 1000, TTL 600000, clock reading 601000 - the
gap equals the TTL exactly and the session stays open. -/
theorem claimC3_witness :
    App.CheckHeartbeat App.exHbState 601000 601000 none = (App.exHbState, none) :=
  (claimC3_heartbeat_boundary App.exHbState 601000 601000 none (by decide)).2.1 (by decide)

/-- C4: FocusGained from the already active client only refreshes
lastHeartbeat; session, activeClientId, current file and open files are
untouched. -/
theorem claimC4_focus_same_client :
    ∀ (st : App.AppState) (event : App.Event) (t1 t2 t3 wallNow : Int)
      (meta : Option App.FileMetadata) (e : Option String),
    st.activeClientId = event.Id →
    App.FocusGained st event t1 t2 t3 wallNow meta e =
      ({ st with lastHeartbeat := t1 }, none) := by
  intro st event t1 t2 t3 wallNow meta e h
  unfold App.FocusGained
  rw [if_pos]
  exact h

/-- C4 witness: refocusing client alpha at t = 50 leaves everything but
lastHeartbeat as it was. -/
theorem claimC4_witness :
    App.FocusGained App.exState App.evAlpha 50 60 70 80 none none =
      ({ App.exState with lastHeartbeat := 50 }, none) :=
  claimC4_focus_same_client App.exState App.evAlpha 50 60 70 80 none none rfl

/-- C5: a session whose merged Files map is empty is dropped, and any
session actually handed to the Store has a non-empty Files map. -/
theorem claimC5_empty_never_saved :
    (∀ (st : App.AppState) (now : Int) (e : Option String) (sess : App.Session),
       (App.saveSession st now e).2 = some sess → sess.Files ≠ []) ∧
    (∀ (ac : String) (lh now : Int) (e : Option String) (s : App.Session),
       App.mergeOpenFiles s.Files (App.closedIntervals s now) = [] →
       (App.saveSession ⟨ac, lh, some s⟩ now e).2 = none) := by
  constructor
  · intro st now e sess h
    obtain ⟨ac, lh, sopt⟩ := st
    cases sopt with
    | none => exact absurd h (by simp [App.saveSession])
    | some s =>
      rw [App.saveSession_eq] at h
      have h' : (if (App.finalSession s now).Files = []
                 then none else some (App.finalSession s now)) = some sess := h
      by_cases hif : (App.finalSession s now).Files = []
      · rw [if_pos hif] at h'
        cases h'
      · rw [if_neg hif] at h'
        injection h' with hh
        rw [← hh]
        exact hif
  · intro ac lh now e s hm
    rw [App.saveSession_eq]
    have hif : (App.finalSession s now).Files = [] := by
      rw [App.finalSession_Files]; exact hm
    rw [if_pos hif]

/-- C5 witness: the concrete close at t = 3600 saves a session with a
non-empty Files map, and closing a fresh session that never resolved a file
hands nothing to the Store. -/
theorem claimC5_witness :
    App.exSaved.Files ≠ [] ∧
    (App.saveSession ⟨"beta", 0, some (App.createSession 100 "linux" "nvim")⟩ 200 none).2 = none :=
  ⟨claimC5_empty_never_saved.1 App.exState 3600 none App.exSaved rfl,
   claimC5_empty_never_saved.2 "beta" 0 200 none (App.createSession 100 "linux" "nvim") rfl⟩

/-- C6: every close resets activeClientId to empty and session to none, the
result does not depend on whether the Store's save failed, and EndSession
returns nil to the RPC caller on every non-fatal path. -/
theorem claimC6_close_resets_engine :
    ∀ (st : App.AppState) (now : Int) (e e' : Option String) (ev : App.Event),
    (App.saveSession st now e).1.activeClientId = "" ∧
    (App.saveSession st now e).1.session = none ∧
    App.saveSession st now e = App.saveSession st now e' ∧
    App.rpcErr (App.EndSession st ev now e) = none := by
  intro st now e e' ev
  refine ⟨(App.saveSession_resets st now e).1, (App.saveSession_resets st now e).2, rfl, ?_⟩
  unfold App.EndSession
  split_ifs <;> rfl

/-- C10: createSession stamps StartedAt from the ambient wall clock while
saveSession stamps EndedAt from the injected clock, so an injected reading
earlier than the wall clock yields a persisted session with EndedAt before
StartedAt and a negative DurationMs. -/
theorem claimC10_clock_skew :
    (∀ (wallNow : Int) (os editor : String),
      (App.createSession wallNow os editor).StartedAt = wallNow) ∧
    (∀ (ac : String) (lh now : Int) (e : Option String) (s sess : App.Session),
      (App.saveSession ⟨ac, lh, some s⟩ now e).2 = some sess →
      sess.EndedAt = now ∧ sess.StartedAt = s.StartedAt ∧
      sess.DurationMs = now - s.StartedAt ∧ (now < s.StartedAt → sess.DurationMs < 0)) := by
  constructor
  · intro wallNow os editor
    rfl
  · intro ac lh now e s sess h
    rw [App.saveSession_eq] at h
    have h' : (if (App.finalSession s now).Files = []
               then none else some (App.finalSession s now)) = some sess := h
    by_cases hif : (App.finalSession s now).Files = []
    · rw [if_pos hif] at h'
      cases h'
    · rw [if_neg hif] at h'
      injection h' with hh
      subst hh
      refine ⟨App.finalSession_EndedAt s now, App.finalSession_StartedAt s now,
        App.finalSession_DurationMs s now, ?_⟩
      intro hlt
      rw [App.finalSession_DurationMs]
      omega

/-- C10 witness: a session created at wall time 100 and closed with the
injected clock at 50 is saved with EndedAt 50, StartedAt 100 and
DurationMs -50. -/
theorem claimC10_witness :
    (App.createSession 100 "linux" "nvim").StartedAt = 100 ∧
    App.exLateSaved.EndedAt = 50 ∧ App.exLateSaved.StartedAt = 100 ∧
    App.exLateSaved.DurationMs = 50 - 100 ∧ App.exLateSaved.DurationMs < 0 :=
  have happ := claimC10_clock_skew.2 "alpha" 0 50 none App.exLate App.exLateSaved rfl
  ⟨claimC10_clock_skew.1 100 "linux" "nvim", happ.1, happ.2.1, happ.2.2.1,
   happ.2.2.2 (by decide)⟩

/-- C9 counterexample: the spec claims every engine operation, checkHeartbeat
included, accesses the guarded state only while holding the lock; the
checkHeartbeat transcription is one of the engine operations yet reads
session and lastHeartbeat before its Lock call. -/
theorem claimC9_counterexample :
    App.checkHeartbeatTrace ∈ App.engineOpTraces ∧
    App.locksAllState App.checkHeartbeatTrace = false := by
  decide

/-- C9 amended: the four RPC handlers hold the lock across every access to
the guarded state, but checkHeartbeat evaluates its staleness guard - reading
session and lastHeartbeat - before acquiring the lock, and only then locks
for the close path. -/
theorem claimC9_locking :
    App.locksAllState App.focusGainedTrace = true ∧
    App.locksAllState App.openFileTrace = true ∧
    App.locksAllState App.sendHeartbeatTrace = true ∧
    App.locksAllState App.endSessionTrace = true ∧
    App.locksAllState App.checkHeartbeatTrace = false := by
  decide

namespace domain

/-- Three raw sessions: two starting on the epoch day, one on the next. -/
def ds1 : Session := { StartedAt := 0, DurationMs := 500, Files := [{ Repository := "pulse", DurationMs := 500 }] }

def ds2 : Session := { StartedAt := 1000, DurationMs := 700, Files := [{ Repository := "pulse", DurationMs := 700 }] }

def ds3 : Session := { StartedAt := 86400000, DurationMs := 300, Files := [{ Repository := "other", DurationMs := 300 }] }

def exDomList : List Session := [ds1, ds2, ds3]

def exDomList2 : List Session := [ds2, ds3, ds1]

end domain

/-- C7: Aggregate buckets sessions by the midnight-truncated UTC day of
StartedAt: every output entry's TotalTimeMs is the summed DurationMs of
exactly the sessions starting on its Date, the day keys are distinct, every
session's day is represented, and the bucket totals add up to the total of
all input durations - a session's whole duration lands in the one bucket of
the day it started. -/
theorem claimC7_day_aggregation : ∀ (l : List domain.Session),
    (∀ (i : Nat) (h : i < (domain.Sessions.Aggregate l).length),
      ((domain.Sessions.Aggregate l).get ⟨i, h⟩).TotalTimeMs =
        ((l.filter fun s =>
            truncate.Day s.StartedAt =
              ((domain.Sessions.Aggregate l).get ⟨i, h⟩).Date).map
          fun s => s.DurationMs).sum ∧
      ((domain.Sessions.Aggregate l).get ⟨i, h⟩).Date ∈
        l.map (fun s => truncate.Day s.StartedAt) ∧
      ((domain.Sessions.Aggregate l).get ⟨i, h⟩).Period = domain.Period.Day) ∧
    ((domain.Sessions.Aggregate l).map fun a => a.TotalTimeMs).sum =
      (l.map fun s => s.DurationMs).sum ∧
    ((domain.Sessions.Aggregate l).map fun a => a.Date).Nodup ∧
    (∀ s ∈ l, truncate.Day s.StartedAt ∈
      (domain.Sessions.Aggregate l).map fun a => a.Date) := by
  intro l
  have hdates : (domain.Sessions.Aggregate l).map (fun a => a.Date) =
      domain.keys (domain.groupByDay l) := by
    rw [domain.aggregate_eq_map_keys, List.map_map]
    rw [show ((fun a => a.Date) ∘ domain.mkAgg l) = id from rfl, List.map_id]
  refine ⟨?_, ?_, ?_, ?_⟩
  · intro i h
    have hmem : (domain.Sessions.Aggregate l).get ⟨i, h⟩ ∈
        (domain.keys (domain.groupByDay l)).map (domain.mkAgg l) := by
      rw [← domain.aggregate_eq_map_keys]
      exact List.get_mem _ _ _
    obtain ⟨d, hd, hEq⟩ := List.mem_map.mp hmem
    have hT : (domain.mkAgg l d).TotalTimeMs =
        ((domain.Sessions.Aggregate l).get ⟨i, h⟩).TotalTimeMs :=
      congrArg (fun a : domain.AggregatedSession => a.TotalTimeMs) hEq
    have hD : (domain.mkAgg l d).Date =
        ((domain.Sessions.Aggregate l).get ⟨i, h⟩).Date :=
      congrArg (fun a : domain.AggregatedSession => a.Date) hEq
    have hP : (domain.mkAgg l d).Period =
        ((domain.Sessions.Aggregate l).get ⟨i, h⟩).Period :=
      congrArg (fun a : domain.AggregatedSession => a.Period) hEq
    refine ⟨?_, ?_, ?_⟩
    · rw [← hT, ← hD]
      rfl
    · rw [← hD]
      exact (domain.mem_keys_groupByDay l d).mp hd
    · rw [← hP]
      rfl
  · have htot : (domain.Sessions.Aggregate l).map (fun a => a.TotalTimeMs) =
        (domain.groupByDay l).map (fun db => (db.2.map fun s => s.DurationMs).sum) := by
      unfold domain.Sessions.Aggregate
      rw [List.map_map]
      rfl
    rw [htot]
    exact domain.sumAll_groupByDay l
  · rw [hdates]
    exact domain.nodup_keys_groupByDay l
  · intro s hs
    rw [hdates]
    exact (domain.mem_keys_groupByDay l _).mpr (List.mem_map_of_mem _ hs)

/-- C7 witness: on the concrete list the first bucket sums its own day's
sessions, its date is a session day, and the day of ds1 is represented. -/
theorem claimC7_witness :
    (((domain.Sessions.Aggregate domain.exDomList).get ⟨0, by decide⟩).TotalTimeMs =
      ((domain.exDomList.filter fun s =>
          truncate.Day s.StartedAt =
            ((domain.Sessions.Aggregate domain.exDomList).get ⟨0, by decide⟩).Date).map
        fun s => s.DurationMs).sum ∧
     ((domain.Sessions.Aggregate domain.exDomList).get ⟨0, by decide⟩).Date ∈
       domain.exDomList.map (fun s => truncate.Day s.StartedAt) ∧
     ((domain.Sessions.Aggregate domain.exDomList).get ⟨0, by decide⟩).Period =
       domain.Period.Day) ∧
    truncate.Day domain.ds1.StartedAt ∈
      (domain.Sessions.Aggregate domain.exDomList).map fun a => a.Date :=
  ⟨(claimC7_day_aggregation domain.exDomList).1 0 (by decide),
   (claimC7_day_aggregation domain.exDomList).2.2.2 domain.ds1 (by decide)⟩

/-- C8: aggregation is order independent - permuting the input sessions
permutes the output aggregates, so the outputs agree as sets of
AggregatedSession keyed by bucket. -/
theorem claimC8_aggregate_perm :
    ∀ (l l' : List domain.Session), l.Perm l' →
      (domain.Sessions.Aggregate l).Perm (domain.Sessions.Aggregate l') := by
  intro l l' h
  rw [domain.aggregate_eq_map_keys, domain.aggregate_eq_map_keys]
  have hAgg : domain.mkAgg l = domain.mkAgg l' := by
    funext d
    have hf : (l.filter fun s => truncate.Day s.StartedAt = d).Perm
        (l'.filter fun s => truncate.Day s.StartedAt = d) := h.filter _
    unfold domain.mkAgg
    have ht : ((l.filter fun s => truncate.Day s.StartedAt = d).map fun s => s.DurationMs).sum =
        ((l'.filter fun s => truncate.Day s.StartedAt = d).map fun s => s.DurationMs).sum :=
      (hf.map _).sum_eq
    have hr : domain.sessionRepositories (l.filter fun s => truncate.Day s.StartedAt = d) =
        domain.sessionRepositories (l'.filter fun s => truncate.Day s.StartedAt = d) := by
      funext repo
      exact (hf.map _).sum_eq
    rw [ht, hr]
  have hkeys : (domain.keys (domain.groupByDay l)).Perm
      (domain.keys (domain.groupByDay l')) := by
    refine (List.perm_ext_iff_of_nodup (domain.nodup_keys_groupByDay l)
      (domain.nodup_keys_groupByDay l')).mpr ?_
    intro d
    rw [domain.mem_keys_groupByDay, domain.mem_keys_groupByDay]
    exact (h.map _).mem_iff
  rw [hAgg]
  exact hkeys.map (domain.mkAgg l')

/-- C8 witness: a concrete permutation of the three-session list yields a
permutation of the aggregates. -/
theorem claimC8_witness :
    (domain.Sessions.Aggregate domain.exDomList).Perm
      (domain.Sessions.Aggregate domain.exDomList2) :=
  claimC8_aggregate_perm domain.exDomList domain.exDomList2 (by decide)
